import Mathlib

/-!
Verification of the resilient incremental Google-Trends collector
(`scripts/Tesis/scraping_outputs/trends.py` and the simpler variant
`scripts/scrapping/0_scrap-trends.py`).

The development shallowly embeds the parts of the scripts that carry the
engineering content: the merge-by-date store, the backoff policy, the
dataframe validator, the safe-save persistence path with backups, the
retry/circuit-breaker wrappers around the pytrends calls, and the alias
aggregation of `fetch_last_90_days`.
-/

namespace Trends

/-! ## Incremental merge store

Models `main` in trends.py (lines 686-688) and 0_scrap-trends.py (243-245):

  combo = pd.concat([hist, df90], ignore_index=True)
  combo = combo.sort_values("date").drop_duplicates(subset=["date"], keep="last")

A row is a date key paired with the rest of the row; the payload is kept
abstract because `drop_duplicates(subset=["date"])` keeps or drops whole rows
by date key only.  `sort_values` is modelled as a stable sort by the date key,
so rows with equal dates keep their concatenation order. -/

/-- Dataset row: the date key plus the remaining (opaque) columns. -/
abbrev Row (α : Type) := Nat × α

variable {α : Type}

/-- Stable insertion of a row into a date-sorted list: the row is placed after
every row whose date key is less than or equal to its own. -/
def insertRow (x : Row α) : List (Row α) → List (Row α)
  | [] => [x]
  | y :: ys => if x.1 < y.1 then x :: y :: ys else y :: insertRow x ys

/-- Model of `combo.sort_values("date")`: stable sort by the date key. -/
def sortByDate (l : List (Row α)) : List (Row α) :=
  l.foldl (fun acc x => insertRow x acc) []

/-- Model of `drop_duplicates(subset=["date"], keep="last")`: a row is kept
exactly when no later row carries the same date key. -/
def dropDupKeepLast : List (Row α) → List (Row α)
  | [] => []
  | r :: rs =>
    if rs.any (fun s => s.1 == r.1) then dropDupKeepLast rs
    else r :: dropDupKeepLast rs

/-- Model of the incremental merge: concatenate historical rows then window
rows, sort by date, and deduplicate by date keeping the last occurrence. -/
def mergeByDate (hist window : List (Row α)) : List (Row α) :=
  dropDupKeepLast (sortByDate (hist ++ window))

/-- Row of a dataset at date `d` (the unique such row once date keys are
pairwise distinct). -/
def rowAt (d : Nat) (l : List (Row α)) : Option (Row α) :=
  l.find? (fun r => r.1 == d)

/-- Rows of a dataset whose date key is `d`. -/
def filterKey (d : Nat) (l : List (Row α)) : List (Row α) :=
  l.filter (fun r => r.1 == d)

/-! ## Backoff policy

Models `backoff_sleep` (trends.py lines 235-244, 0_scrap-trends.py 88-95):

  delay = min(BASE_SLEEP_SECONDS * (2 ** attempt) + random.uniform(0, 10.0), cap)

All the constants involved are whole numbers of seconds, so the delay is
modelled over `Nat`; the jitter is an explicit argument and the jitter-free
part of the delay is the jitter-0 instance. -/

/-- Constant `BASE_SLEEP_SECONDS = 30.0` of trends.py. -/
def BASE_SLEEP_SECONDS : Nat := 30

/-- Constant `MAX_BACKOFF_CAP = 600.0` of trends.py (default cap of `backoff_sleep`). -/
def MAX_BACKOFF_CAP : Nat := 600

/-- Constant `BASE_SLEEP_SECONDS = 5.0` of 0_scrap-trends.py. -/
def BASE_SLEEP_SECONDS_simple : Nat := 5

/-- Constant default `cap = 90.0` of `backoff_sleep` in 0_scrap-trends.py. -/
def BACKOFF_CAP_simple : Nat := 90

/-- Delay computed by `backoff_sleep`: exponential in the attempt number from
the base unit, plus jitter, capped at `cap`. -/
def backoff_delay (base cap jitter attempt : Nat) : Nat :=
  min (base * 2 ^ attempt + jitter) cap

/-- Deterministic (jitter-free) part of the backoff delay. -/
def backoff_delay_det (base cap attempt : Nat) : Nat :=
  backoff_delay base cap 0 attempt

/-! ## Dataset validator

Models `validate_dataframe` (trends.py lines 121-150).  A dataframe is a list
of named columns; a column is either date-like (each value either parses under
`pd.to_datetime(..., errors="coerce")` or does not) or numeric.  The function
returns the `(is_valid, message)` pair of the source together with the list of
range warnings logged by the numeric loop. -/

/-- Column payload: date-like values (`none` fails to parse) or numeric values. -/
inductive ColData where
  | dates (vals : List (Option Int))
  | nums (vals : List Int)
deriving DecidableEq

/-- Number of rows of a column. -/
def ColData.nRows : ColData → Nat
  | .dates vs => vs.length
  | .nums vs => vs.length

/-- Dataframe: named columns in order. -/
structure DataFrame where
  cols : List (String × ColData)
deriving DecidableEq

/-- Column names, in order (`df.columns`). -/
def DataFrame.columns (df : DataFrame) : List String :=
  df.cols.map Prod.fst

/-- Number of rows (`len(df)`), read off the first column. -/
def DataFrame.nRows (df : DataFrame) : Nat :=
  match df.cols with
  | [] => 0
  | (_, c) :: _ => c.nRows

/-- Model of `df.empty`: no columns or no rows. -/
def DataFrame.isEmpty (df : DataFrame) : Bool :=
  df.cols.isEmpty || df.nRows == 0

/-- First column with the given name, if any. -/
def DataFrame.getCol (df : DataFrame) (name : String) : Option ColData :=
  (df.cols.find? (fun p => p.1 == name)).map Prod.snd

/-- Number of values of the `date` column on which
`pd.to_datetime(df["date"], errors="coerce")` yields NaT. -/
def invalidDateCount (df : DataFrame) : Nat :=
  match df.getCol "date" with
  | some (.dates vs) => vs.countP (fun v => v.isNone)
  | some (.nums _) => 0
  | none => 0

/-- Names of the numeric columns other than `date` whose minimum is below 0 or
whose maximum is above 1000; `validate_dataframe` only logs a warning for
these (lines 143-148), it never rejects them. -/
def rangeWarnings (df : DataFrame) : List String :=
  df.cols.filterMap (fun p =>
    match p.2 with
    | .nums vs =>
      if p.1 ≠ "date" ∧ (vs.any (fun v => v < 0) ∨ vs.any (fun v => v > 1000)) then
        some p.1
      else none
    | .dates _ => none)

/-- Messages returned by `validate_dataframe`, one constructor per literal
message string of the source. -/
inductive ValidationMsg where
  | dfNone
  | dfEmpty
  | missingDateCol
  | invalidDates (n : Nat)
  | ok
deriving DecidableEq

/-- Model of `validate_dataframe`: the returned `(is_valid, message)` pair,
paired with the list of range warnings logged on the way. -/
def validate_dataframe (df? : Option DataFrame) :
    (Bool × ValidationMsg) × List String :=
  match df? with
  | none => ((false, .dfNone), [])
  | some df =>
    if df.isEmpty then ((false, .dfEmpty), [])
    else if ¬ df.columns.contains "date" then ((false, .missingDateCol), [])
    else if 0 < invalidDateCount df then
      ((false, .invalidDates (invalidDateCount df)), [])
    else ((true, .ok), rangeWarnings df)

/-! ## Persistence: backups and safe save

Models `backup_existing_file` (trends.py lines 153-165) and
`safe_save_dataframe` (lines 168-213) over an explicit file-system state.
The file copy performed by `shutil.copy2` is modelled as reliable; the disk
check and the two write calls get explicit success flags so that failing
writes can be reasoned about. -/

/-- Timestamped copy of a dataset file in the backup directory. -/
structure BackupEntry where
  origStem : String
  timestamp : String
  content : DataFrame
deriving DecidableEq

/-- File-system state touched by the persistence path: the primary CSV file,
the redundant Parquet file, and the backup directory. -/
structure FileState where
  csvFile : Option DataFrame
  parquetFile : Option DataFrame
  backups : List BackupEntry
deriving DecidableEq

/-- Model of `backup_existing_file`: when the file exists, append a
timestamped copy of its current content to the backup directory. -/
def backup_existing_file (stem ts : String) (file : Option DataFrame)
    (backups : List BackupEntry) : List BackupEntry :=
  match file with
  | some content => backups ++ [⟨stem, ts, content⟩]
  | none => backups

/-- Model of `safe_save_dataframe df csv_path parquet_path`: validate, check
disk space, back up both existing files, write the CSV (failure is fatal,
returning `false`), then write the Parquet (failure is logged and swallowed).
`withParquet` is whether a parquet path was passed; `diskOk`, `csvOk`,
`parquetOk` are the outcomes of the disk check and of the two write calls. -/
def safe_save_dataframe (df : DataFrame) (fs : FileState)
    (withParquet diskOk csvOk parquetOk : Bool) (ts : String) :
    Bool × FileState :=
  if (validate_dataframe (some df)).1.1 = false then (false, fs)
  else if diskOk = false then (false, fs)
  else
    let b1 := backup_existing_file "trends_candidatos_daily.csv" ts fs.csvFile fs.backups
    let b2 := if withParquet then
        backup_existing_file "trends_candidatos_daily.parquet" ts fs.parquetFile b1
      else b1
    let fs1 : FileState := { fs with backups := b2 }
    if csvOk = false then (false, fs1)
    else
      let fs2 : FileState := { fs1 with csvFile := some df }
      if withParquet && parquetOk then (true, { fs2 with parquetFile := some df })
      else (true, fs2)

/-! ## Rate-limited fetch client

Models the retry wrappers `safe_build_payload` (trends.py lines 269-351) and
`safe_interest_over_time` (lines 354-464) together with `wait_if_blocked`
(lines 247-266).  A run is driven by a stream of outcomes, one per actual call
to the pytrends service; the model tracks the process-wide
`consecutive_429_count` and the number of long `wait_if_blocked` cooldown
sleeps taken. -/

/-- Outcome of one call to the external service. -/
inductive Outcome where
  | success
  | throttled
  | netError
  | otherError
deriving DecidableEq

/-- How a wrapper call ends: returning normally (with data, for
`safe_interest_over_time`), returning an empty frame, or raising. -/
inductive CallExit where
  | returnedData
  | returnedEmpty
  | raisedExc
deriving DecidableEq

/-- Result of a wrapper call: how it exited, the value of the process-wide
consecutive-429 counter afterwards, and how many circuit-open cooldown sleeps
were taken during the call. -/
structure RunResult where
  exit : CallExit
  counter : Nat
  cooldowns : Nat
deriving DecidableEq

/-- Constant `MAX_RETRIES = 5` of trends.py. -/
def MAX_RETRIES : Nat := 5

/-- Bookkeeping of the THROTTLED branch (trends.py lines 296-303 and 400-407):
`consecutive_429_count += 1`, then `wait_if_blocked` takes one long cooldown
sleep and the counter is reset exactly when the counter has reached 3. -/
def throttleUpdate (counter cooldowns : Nat) : Nat × Nat :=
  if counter + 1 ≥ 3 then (0, cooldowns + 1) else (counter + 1, cooldowns)

/-- Retry loop of `safe_build_payload`: `remaining` attempts left out of
`MAX_RETRIES`, `k` indexes the outcome stream, `c` is the consecutive-429
counter, `cd` the number of cooldowns taken.  On the last attempt a throttle
triggers one extra last-chance call (lines 305-330), whose failure is raised
without touching the counter; network and other errors on the last attempt
reset the counter and raise. -/
def payloadGo (out : Nat → Outcome) : Nat → Nat → Nat → Nat → RunResult
  | 0, _, c, cd => ⟨.raisedExc, c, cd⟩
  | remaining + 1, k, c, cd =>
    match out k with
    | .success => ⟨.returnedData, 0, cd⟩
    | .throttled =>
      let p := throttleUpdate c cd
      if remaining = 0 then
        match out (k + 1) with
        | .success => ⟨.returnedData, 0, p.2⟩
        | _ => ⟨.raisedExc, p.1, p.2⟩
      else payloadGo out remaining (k + 1) p.1 p.2
    | .netError =>
      if remaining = 0 then ⟨.raisedExc, 0, cd⟩
      else payloadGo out remaining (k + 1) 0 cd
    | .otherError =>
      if remaining = 0 then ⟨.raisedExc, 0, cd⟩
      else payloadGo out remaining (k + 1) 0 cd

/-- Model of one call to `safe_build_payload`, starting from consecutive-429
counter `c` and driven by the outcome stream `out`. -/
def runBuildPayload (out : Nat → Outcome) (c : Nat) : RunResult :=
  payloadGo out MAX_RETRIES 0 c 0

/-- Retry loop of `safe_interest_over_time`: identical control flow to
`payloadGo` except that exhaustion never raises — network errors, other
errors and the failed last-chance attempt after throttling all return an
empty dataframe instead (lines 409-464). -/
def iotGo (out : Nat → Outcome) : Nat → Nat → Nat → Nat → RunResult
  | 0, _, c, cd => ⟨.returnedEmpty, c, cd⟩
  | remaining + 1, k, c, cd =>
    match out k with
    | .success => ⟨.returnedData, 0, cd⟩
    | .throttled =>
      let p := throttleUpdate c cd
      if remaining = 0 then
        match out (k + 1) with
        | .success => ⟨.returnedData, 0, p.2⟩
        | _ => ⟨.returnedEmpty, p.1, p.2⟩
      else iotGo out remaining (k + 1) p.1 p.2
    | .netError =>
      if remaining = 0 then ⟨.returnedEmpty, 0, cd⟩
      else iotGo out remaining (k + 1) 0 cd
    | .otherError =>
      if remaining = 0 then ⟨.returnedEmpty, 0, cd⟩
      else iotGo out remaining (k + 1) 0 cd

/-- Model of one call to `safe_interest_over_time`, starting from
consecutive-429 counter `c`. -/
def runInterestOverTime (out : Nat → Outcome) (c : Nat) : RunResult :=
  iotGo out MAX_RETRIES 0 c 0

/-- Trace of the circuit-open scenario: three consecutive throttles, then
every further call succeeds. -/
def throttleThenSuccess : Nat → Outcome :=
  fun k => if k < 3 then .throttled else .success

/-- Model of the per-batch loop of `fetch_last_90_days` (trends.py lines
508-548): a batch whose fetch raised or produced no rows (`none`) contributes
nothing, and the loop continues with the remaining batches. -/
def survivingSeries (batches : List (Option (List (Nat × Nat)))) :
    List (List (Nat × Nat)) :=
  batches.filterMap id

/-! ## Alias aggregation and window assembly

Models the per-entity combination step of `fetch_last_90_days` (trends.py
lines 569-589): the surviving batch frames are outer-joined on `date` and the
entity's daily value is `merged[numeric_cols].max(axis=1)`, the row-wise
maximum over the alias columns with missing entries skipped.  Lines 603-616
then outer-join the per-entity frames and fill every missing numeric cell
with 0. -/

/-- Value of an alias column at date `d` after the outer join: the alias's
value when its frame has the date, missing (NaN) otherwise. -/
def lookupDate (d : Nat) (series : List (Nat × Nat)) : Option Nat :=
  (series.find? (fun r => r.1 == d)).map Prod.snd

/-- Row-wise maximum skipping missing entries (pandas `max(axis=1)`); an
all-missing row yields NaN. -/
def rowMax : List (Option Nat) → Option Nat
  | [] => none
  | none :: rest => rowMax rest
  | some v :: rest =>
    match rowMax rest with
    | none => some v
    | some w => some (max v w)

/-- Aggregated per-entity value at date `d`: the daily maximum across the
surviving alias columns. -/
def aggregatedValue (aliasCols : List (List (Nat × Nat))) (d : Nat) : Option Nat :=
  rowMax (aliasCols.map (lookupDate d))

/-- Model of the fillna step (trends.py line 616, 0_scrap-trends.py line 215):
after the outer join, a missing numeric cell becomes the value 0. -/
def filledCell (series : List (Nat × Nat)) (d : Nat) : Nat :=
  (lookupDate d series).getD 0

/-- Dates appearing in at least one per-entity frame: the date column of the
outer-joined window. -/
def unionDates (frames : List (String × List (Nat × Nat))) : List Nat :=
  ((frames.map (fun p => p.2.map Prod.fst)).flatten).dedup

/-- Model of the assembled Window of `fetch_last_90_days`: one row per date of
the union, one numeric column per entity, missing cells filled with 0. -/
def assembleWindow (frames : List (String × List (Nat × Nat))) :
    List (Nat × List (String × Nat)) :=
  (unionDates frames).map (fun d => (d, frames.map (fun p => (p.1, filledCell p.2 d))))

/-- Cell of the assembled Window for entity `e` at date `d`, when the row and
the column exist. -/
def windowCell (frames : List (String × List (Nat × Nat))) (e : String) (d : Nat) :
    Option Nat :=
  ((assembleWindow frames).find? (fun r => r.1 == d)).bind
    (fun r => (r.2.find? (fun c => c.1 == e)).map Prod.snd)

/-- Sample pre-merge historical dataset used by witnesses. -/
def sampleOldFrame : DataFrame :=
  ⟨[("date", .dates [some 0, some 1]), ("Jeannette Jara", .nums [1, 2])]⟩

/-- Sample valid merged dataset used by witnesses. -/
def sampleNewFrame : DataFrame :=
  ⟨[("date", .dates [some 0, some 1, some 2]), ("Jeannette Jara", .nums [1, 40, 50])]⟩

/-- Sample dataframe carrying a negative score: the validator accepts it. -/
def sampleNegativeFrame : DataFrame :=
  ⟨[("date", .dates [some 0]), ("Jeannette Jara", .nums [-5])]⟩

theorem filterKey_nil (d : Nat) : filterKey d ([] : List (Row α)) = [] := rfl

theorem filterKey_cons (d : Nat) (r : Row α) (rs : List (Row α)) :
    filterKey d (r :: rs) = if r.1 = d then r :: filterKey d rs else filterKey d rs := by
  rw [filterKey, List.filter_cons]
  by_cases h : r.1 = d
  · rw [if_pos (by simp [h]), if_pos h]; rfl
  · rw [if_neg (by simp [h]), if_neg h]; rfl

theorem rowAt_nil (d : Nat) : rowAt d ([] : List (Row α)) = none := rfl

theorem rowAt_cons (d : Nat) (r : Row α) (rs : List (Row α)) :
    rowAt d (r :: rs) = if r.1 = d then some r else rowAt d rs := by
  by_cases h : r.1 = d
  · rw [rowAt, List.find?_cons_of_pos _ (by simp [h]), if_pos h]
  · rw [rowAt, List.find?_cons_of_neg _ (by simp [h]), if_neg h]; rfl

theorem mem_insertRow {x y : Row α} {l : List (Row α)} :
    y ∈ insertRow x l ↔ y = x ∨ y ∈ l := by
  induction l with
  | nil => simp [insertRow]
  | cons z zs ih =>
    simp only [insertRow]
    by_cases h : x.1 < z.1
    · simp only [if_pos h, List.mem_cons]
    · simp only [if_neg h, List.mem_cons, ih]
      tauto

theorem insertRow_pairwise {x : Row α} {l : List (Row α)}
    (h : l.Pairwise (fun a b => a.1 ≤ b.1)) :
    (insertRow x l).Pairwise (fun a b => a.1 ≤ b.1) := by
  induction l with
  | nil => simp [insertRow]
  | cons z zs ih =>
    rw [List.pairwise_cons] at h
    obtain ⟨hz, hzs⟩ := h
    simp only [insertRow]
    by_cases hlt : x.1 < z.1
    · rw [if_pos hlt]
      refine List.Pairwise.cons ?_ (List.Pairwise.cons hz hzs)
      intro b hb
      rcases List.mem_cons.mp hb with rfl | hb
      · exact Nat.le_of_lt hlt
      · exact Nat.le_trans (Nat.le_of_lt hlt) (hz b hb)
    · rw [if_neg hlt]
      refine List.Pairwise.cons ?_ (ih hzs)
      intro b hb
      rcases mem_insertRow.mp hb with rfl | hb
      · exact Nat.le_of_not_lt hlt
      · exact hz b hb

theorem filterKey_insertRow {x : Row α} {l : List (Row α)} (d : Nat)
    (h : l.Pairwise (fun a b => a.1 ≤ b.1)) :
    filterKey d (insertRow x l) =
      filterKey d l ++ if x.1 = d then [x] else [] := by
  induction l with
  | nil =>
    rw [insertRow, filterKey_cons, filterKey_nil, List.nil_append]
  | cons z zs ih =>
    rw [List.pairwise_cons] at h
    obtain ⟨hz, hzs⟩ := h
    simp only [insertRow]
    by_cases hlt : x.1 < z.1
    · rw [if_pos hlt]
      by_cases hxd : x.1 = d
      · have hnil : filterKey d (z :: zs) = [] := by
          rw [filterKey, List.filter_eq_nil_iff]
          intro a ha
          rcases List.mem_cons.mp ha with rfl | ha
          · simp only [beq_iff_eq]
            omega
          · have := hz a ha
            simp only [beq_iff_eq]
            omega
        rw [filterKey_cons, if_pos hxd, hnil, if_pos hxd, List.nil_append]
      · rw [filterKey_cons, if_neg hxd, if_neg hxd, List.append_nil]
    · rw [if_neg hlt]
      rw [filterKey_cons, filterKey_cons]
      by_cases hzd : z.1 = d
      · rw [if_pos hzd, if_pos hzd, ih hzs, List.cons_append]
      · rw [if_neg hzd, if_neg hzd, ih hzs]

theorem filterKey_foldl_insertRow (d : Nat) (l : List (Row α)) :
    ∀ acc : List (Row α), acc.Pairwise (fun a b => a.1 ≤ b.1) →
      filterKey d (l.foldl (fun acc x => insertRow x acc) acc) =
        filterKey d acc ++ filterKey d l := by
  induction l with
  | nil => intro acc _; simp [filterKey]
  | cons x xs ih =>
    intro acc hacc
    rw [List.foldl_cons, ih _ (insertRow_pairwise hacc), filterKey_insertRow d hacc]
    rw [filterKey_cons]
    by_cases hxd : x.1 = d
    · rw [if_pos hxd, if_pos hxd, List.append_assoc]
      rfl
    · rw [if_neg hxd, if_neg hxd, List.append_nil]

theorem filterKey_sortByDate (d : Nat) (l : List (Row α)) :
    filterKey d (sortByDate l) = filterKey d l := by
  have h := filterKey_foldl_insertRow d l [] (by simp)
  simpa [sortByDate, filterKey] using h

theorem sortByDate_pairwise (l : List (Row α)) :
    (sortByDate l).Pairwise (fun a b => a.1 ≤ b.1) := by
  rw [sortByDate]
  have h : ∀ acc : List (Row α), acc.Pairwise (fun a b => a.1 ≤ b.1) →
      (l.foldl (fun acc x => insertRow x acc) acc).Pairwise (fun a b => a.1 ≤ b.1) := by
    induction l with
    | nil => intro acc hacc; simpa using hacc
    | cons x xs ih => intro acc hacc; exact ih _ (insertRow_pairwise hacc)
  exact h [] (by simp)

theorem dropDupKeepLast_sublist (l : List (Row α)) :
    (dropDupKeepLast l).Sublist l := by
  induction l with
  | nil => simp [dropDupKeepLast]
  | cons r rs ih =>
    simp only [dropDupKeepLast]
    by_cases h : rs.any (fun s => s.1 == r.1) = true
    · rw [if_pos h]; exact ih.cons r
    · rw [if_neg h]; exact ih.cons₂ r

theorem dropDupKeepLast_keysDistinct (l : List (Row α)) :
    (dropDupKeepLast l).Pairwise (fun a b => a.1 ≠ b.1) := by
  induction l with
  | nil => simp [dropDupKeepLast]
  | cons r rs ih =>
    simp only [dropDupKeepLast]
    by_cases h : rs.any (fun s => s.1 == r.1) = true
    · rw [if_pos h]; exact ih
    · rw [if_neg h]
      refine List.Pairwise.cons ?_ ih
      intro b hb heq
      have hbmem : b ∈ rs := (dropDupKeepLast_sublist rs).subset hb
      rw [List.any_eq_true] at h
      exact h ⟨b, hbmem, by simp [heq]⟩

theorem rowAt_dropDupKeepLast (d : Nat) (l : List (Row α)) :
    rowAt d (dropDupKeepLast l) = (filterKey d l).getLast? := by
  induction l with
  | nil => simp [dropDupKeepLast, rowAt, filterKey]
  | cons r rs ih =>
    simp only [dropDupKeepLast]
    by_cases h : rs.any (fun s => s.1 == r.1) = true
    · rw [if_pos h, ih]
      by_cases hrd : r.1 = d
      · have hne : filterKey d rs ≠ [] := by
          rw [List.any_eq_true] at h
          obtain ⟨s, hs, hsd⟩ := h
          intro hnil
          rw [filterKey, List.filter_eq_nil_iff] at hnil
          refine hnil s hs ?_
          simp only [beq_iff_eq] at hsd ⊢
          omega
        rw [filterKey_cons, if_pos hrd]
        obtain ⟨x, t, hxt⟩ := List.exists_cons_of_ne_nil hne
        rw [hxt, List.getLast?_cons_cons]
      · rw [filterKey_cons, if_neg hrd]
    · rw [if_neg h]
      by_cases hrd : r.1 = d
      · have hnil : filterKey d rs = [] := by
          rw [filterKey, List.filter_eq_nil_iff]
          intro a ha had
          rw [List.any_eq_true] at h
          refine h ⟨a, ha, ?_⟩
          simp only [beq_iff_eq] at had ⊢
          omega
        rw [rowAt_cons, if_pos hrd, filterKey_cons, if_pos hrd, hnil]
        rfl
      · rw [rowAt_cons, if_neg hrd, filterKey_cons, if_neg hrd]
        exact ih

theorem rowAt_mergeByDate (d : Nat) (hist window : List (Row α)) :
    rowAt d (mergeByDate hist window) =
      (filterKey d hist ++ filterKey d window).getLast? := by
  rw [mergeByDate, rowAt_dropDupKeepLast, filterKey_sortByDate]
  rw [show filterKey d (hist ++ window) =
    List.filter (fun r => r.1 == d) (hist ++ window) from rfl]
  rw [List.filter_append]
  rfl

theorem rowAt_eq_head?_filterKey (d : Nat) (l : List (Row α)) :
    rowAt d l = (filterKey d l).head? := by
  induction l with
  | nil => rfl
  | cons r rs ih =>
    rw [rowAt_cons, filterKey_cons]
    by_cases h : r.1 = d
    · rw [if_pos h, if_pos h, List.head?_cons]
    · rw [if_neg h, if_neg h]
      exact ih

theorem filterKey_length_le_one {l : List (Row α)}
    (hl : l.Pairwise (fun a b => a.1 ≠ b.1)) (d : Nat) :
    (filterKey d l).length ≤ 1 := by
  induction l with
  | nil => simp [filterKey]
  | cons r rs ih =>
    rw [List.pairwise_cons] at hl
    obtain ⟨hr, hrs⟩ := hl
    rw [filterKey_cons]
    by_cases h : r.1 = d
    · rw [if_pos h]
      have hnil : filterKey d rs = [] := by
        rw [filterKey, List.filter_eq_nil_iff]
        intro a ha had
        simp only [beq_iff_eq] at had
        exact hr a ha (by omega)
      simp [hnil]
    · rw [if_neg h]
      exact ih hrs

theorem head?_eq_getLast?_of_short {β : Type} {l : List β} (h : l.length ≤ 1) :
    l.head? = l.getLast? := by
  rcases l with _ | ⟨x, _ | ⟨y, t⟩⟩
  · rfl
  · rfl
  · simp at h

theorem rowAt_none_of_lt_keys {a : Row α} {t : List (Row α)}
    (h : ∀ b ∈ t, a.1 < b.1) : rowAt a.1 t = none := by
  rw [rowAt, List.find?_eq_none]
  intro x hx
  have := h x hx
  simp only [beq_iff_eq]
  omega

theorem eq_of_keysSorted_of_rowAt_eq :
    ∀ {l₁ l₂ : List (Row α)},
      l₁.Pairwise (fun a b => a.1 < b.1) → l₂.Pairwise (fun a b => a.1 < b.1) →
      (∀ d, rowAt d l₁ = rowAt d l₂) → l₁ = l₂ := by
  intro l₁
  induction l₁ with
  | nil =>
    intro l₂ _ h₂ h
    rcases l₂ with _ | ⟨b, t₂⟩
    · rfl
    · have hb := h b.1
      rw [rowAt_nil, rowAt_cons, if_pos rfl] at hb
      exact absurd hb (by simp)
  | cons a t₁ ih =>
    intro l₂ h₁ h₂ h
    rcases l₂ with _ | ⟨b, t₂⟩
    · have ha := h a.1
      rw [rowAt_nil, rowAt_cons, if_pos rfl] at ha
      exact absurd ha (by simp)
    · rw [List.pairwise_cons] at h₁ h₂
      obtain ⟨ha1, ht1⟩ := h₁
      obtain ⟨hb2, ht2⟩ := h₂
      have hab : a = b := by
        by_cases hba : b.1 = a.1
        · have ha := h a.1
          rw [rowAt_cons, if_pos rfl, rowAt_cons, if_pos hba] at ha
          exact Option.some_inj.mp ha
        · have ha := h a.1
          rw [rowAt_cons, if_pos rfl, rowAt_cons, if_neg hba] at ha
          rw [rowAt] at ha
          have hamem : a ∈ t₂ := List.mem_of_find?_eq_some ha.symm
          have hba1 : b.1 < a.1 := hb2 a hamem
          have hb := h b.1
          rw [rowAt_cons, if_neg (show ¬a.1 = b.1 by omega), rowAt_cons, if_pos rfl] at hb
          rw [rowAt] at hb
          have hbmem : b ∈ t₁ := List.mem_of_find?_eq_some hb
          exact absurd (ha1 b hbmem) (by omega)
      subst hab
      have htl : t₁ = t₂ := by
        refine ih ht1 ht2 ?_
        intro d
        by_cases hda : d = a.1
        · subst hda
          rw [rowAt_none_of_lt_keys ha1, rowAt_none_of_lt_keys hb2]
        · have hd := h d
          rw [rowAt_cons, if_neg (by omega), rowAt_cons, if_neg (by omega)] at hd
          exact hd
      rw [htl]

theorem mergeByDate_keysSorted (hist window : List (Row α)) :
    (mergeByDate hist window).Pairwise (fun a b => a.1 < b.1) := by
  have hle : (mergeByDate hist window).Pairwise (fun a b => a.1 ≤ b.1) :=
    List.Pairwise.sublist (dropDupKeepLast_sublist _) (sortByDate_pairwise (hist ++ window))
  have hne : (mergeByDate hist window).Pairwise (fun a b => a.1 ≠ b.1) :=
    dropDupKeepLast_keysDistinct _
  exact (hle.and hne).imp (fun h => lt_of_le_of_ne h.1 h.2)

theorem mergeByDate_keysDistinct (hist window : List (Row α)) :
    (mergeByDate hist window).Pairwise (fun a b => a.1 ≠ b.1) :=
  (mergeByDate_keysSorted hist window).imp (fun h => Nat.ne_of_lt h)

/-- C1: Overlap precedence of the incremental merge — for every date present
in both the historical dataset and the freshly fetched window (whose date
keys are unique), the merged dataset's row at that date is exactly the
window's row, never the old historical one. -/
theorem merge_overlap_precedence (hist window : List (Row α)) (d : Nat)
    (huniq : window.Pairwise (fun a b => a.1 ≠ b.1))
    (hdh : d ∈ hist.map Prod.fst) (hdw : d ∈ window.map Prod.fst) :
    rowAt d (mergeByDate hist window) = rowAt d window := by
  rw [rowAt_mergeByDate]
  have hne : filterKey d window ≠ [] := by
    rw [filterKey, ne_eq, List.filter_eq_nil_iff]
    intro hall
    obtain ⟨r, hr, hrd⟩ := List.mem_map.mp hdw
    exact hall r hr (by simp [hrd])
  rw [List.getLast?_append_of_ne_nil _ hne]
  rw [rowAt_eq_head?_filterKey,
    head?_eq_getLast?_of_short (filterKey_length_le_one huniq d)]

/-- Witness for C1 on a concrete overlapping date. -/
theorem merge_overlap_precedence_witness :
    rowAt 4 (mergeByDate [(3, 3), (4, 4), (5, 5)] [(4, 40), (5, 50)]) =
      rowAt 4 [(4, (40 : Nat)), (5, 50)] :=
  merge_overlap_precedence [(3, 3), (4, 4), (5, 5)] [(4, 40), (5, 50)] 4
    (by simp) (by simp) (by simp)

/-- C2: Merge idempotence — merging the same window into a historical dataset
twice yields the same dataset as merging it once. -/
theorem merge_idempotent (hist window : List (Row α)) :
    mergeByDate (mergeByDate hist window) window = mergeByDate hist window := by
  refine eq_of_keysSorted_of_rowAt_eq (mergeByDate_keysSorted _ _)
    (mergeByDate_keysSorted _ _) ?_
  intro d
  rw [rowAt_mergeByDate]
  by_cases hw : filterKey d window = []
  · rw [hw, List.append_nil]
    rw [rowAt_eq_head?_filterKey, head?_eq_getLast?_of_short
      (filterKey_length_le_one (mergeByDate_keysDistinct hist window) d)]
  · rw [List.getLast?_append_of_ne_nil _ hw, rowAt_mergeByDate,
      List.getLast?_append_of_ne_nil _ hw]

/-- C5: Backoff policy — the jitter-free delay is monotone in the attempt
count, every computed delay is capped at the configured ceiling, and the
jitter-free delay is never zero for any attempt ≥ 1. -/
theorem backoff_policy (base cap : Nat) (hb : 0 < base) (hc : 0 < cap) :
    (∀ n₁ n₂, n₁ < n₂ →
      backoff_delay_det base cap n₁ ≤ backoff_delay_det base cap n₂) ∧
    (∀ j n, backoff_delay base cap j n ≤ cap) ∧
    (∀ n, 1 ≤ n → 0 < backoff_delay_det base cap n) := by
  refine ⟨?_, ?_, ?_⟩
  · intro n₁ n₂ h
    have hp : base * 2 ^ n₁ ≤ base * 2 ^ n₂ :=
      Nat.mul_le_mul_left base (Nat.pow_le_pow_right (by norm_num) (Nat.le_of_lt h))
    simp only [backoff_delay_det, backoff_delay, Nat.add_zero]
    omega
  · intro j n
    exact Nat.min_le_right _ _
  · intro n hn
    have hp : 0 < base * 2 ^ n := Nat.mul_pos hb (pow_pos (by norm_num) n)
    simp only [backoff_delay_det, backoff_delay, Nat.add_zero]
    omega

/-- Witness for C5 at the concrete constants of both scripts. -/
theorem backoff_policy_witness :
    backoff_delay_det BASE_SLEEP_SECONDS MAX_BACKOFF_CAP 1 ≤
      backoff_delay_det BASE_SLEEP_SECONDS MAX_BACKOFF_CAP 2 ∧
    backoff_delay BASE_SLEEP_SECONDS_simple BACKOFF_CAP_simple 2 6 ≤
      BACKOFF_CAP_simple ∧
    0 < backoff_delay_det BASE_SLEEP_SECONDS MAX_BACKOFF_CAP 1 :=
  ⟨(backoff_policy BASE_SLEEP_SECONDS MAX_BACKOFF_CAP (by decide) (by decide)).1
      1 2 (by decide),
   (backoff_policy BASE_SLEEP_SECONDS_simple BACKOFF_CAP_simple (by decide)
      (by decide)).2.1 2 6,
   (backoff_policy BASE_SLEEP_SECONDS MAX_BACKOFF_CAP (by decide) (by decide)).2.2
      1 (by decide)⟩

/-- C3 counterexample: a dataframe with a negative numeric score passes
validation — the result is OK and only a range warning is logged — so the
validator does not return an error on negative numeric columns as claimed. -/
theorem validator_negative_accepted_cex :
    (validate_dataframe (some sampleNegativeFrame)).1 = (true, .ok) ∧
    (validate_dataframe (some sampleNegativeFrame)).2 = ["Jeannette Jara"] ∧
    sampleNegativeFrame.cols.any
      (fun p => match p.2 with
        | .nums vs => vs.any (fun v => v < 0)
        | .dates _ => false) = true := by
  decide

/-- C3 (amended): the validator applies its checks in order, short-circuiting
on the first failure — dataframe non-null, non-empty, date column present,
every date value parses — and the numeric range check (negative values or
values above the 1000 ceiling alike) only logs warnings, never rejecting. -/
theorem validator_checks_in_order (df : DataFrame) :
    validate_dataframe none = ((false, .dfNone), []) ∧
    (df.isEmpty = true → validate_dataframe (some df) = ((false, .dfEmpty), [])) ∧
    (df.isEmpty = false → df.columns.contains "date" = false →
      validate_dataframe (some df) = ((false, .missingDateCol), [])) ∧
    (df.isEmpty = false → df.columns.contains "date" = true →
      0 < invalidDateCount df →
      validate_dataframe (some df) =
        ((false, .invalidDates (invalidDateCount df)), [])) ∧
    (df.isEmpty = false → df.columns.contains "date" = true →
      invalidDateCount df = 0 →
      validate_dataframe (some df) = ((true, .ok), rangeWarnings df)) := by
  refine ⟨rfl, ?_, ?_, ?_, ?_⟩
  · intro h1
    simp [validate_dataframe, h1]
  · intro h1 h2
    have h2' : ¬ ("date" ∈ df.columns) := by simpa using h2
    simp [validate_dataframe, h1, h2']
  · intro h1 h2 h3
    have h2' : "date" ∈ df.columns := by simpa using h2
    simp [validate_dataframe, h1, h2', h3]
  · intro h1 h2 h3
    have h2' : "date" ∈ df.columns := by simpa using h2
    simp [validate_dataframe, h1, h2', h3]

/-- Witness for C3's amended theorem on concrete frames. -/
theorem validator_checks_in_order_witness :
    validate_dataframe (some (⟨[]⟩ : DataFrame)) = ((false, .dfEmpty), []) ∧
    validate_dataframe (some sampleNegativeFrame) =
      ((true, .ok), rangeWarnings sampleNegativeFrame) :=
  ⟨(validator_checks_in_order ⟨[]⟩).2.1 (by decide),
   (validator_checks_in_order sampleNegativeFrame).2.2.2.2 (by decide) (by decide)
     (by decide)⟩

theorem rowMax_eq_none {l : List (Option Nat)} (h : rowMax l = none) :
    ∀ w : Nat, some w ∉ l := by
  induction l with
  | nil => simp
  | cons x rest ih =>
    intro w hw
    rcases x with _ | v
    · rw [show rowMax (none :: rest) = rowMax rest from rfl] at h
      rcases List.mem_cons.mp hw with hww | hw'
      · exact absurd hww (by simp)
      · exact ih h w hw'
    · rw [show rowMax (some v :: rest) =
        (match rowMax rest with
         | none => some v
         | some w => some (max v w)) from rfl] at h
      rcases hrest : rowMax rest with _ | m
      · rw [hrest] at h
        exact absurd h (by simp)
      · rw [hrest] at h
        exact absurd h (by simp)

theorem rowMax_spec {l : List (Option Nat)} {v : Nat} (h : rowMax l = some v) :
    some v ∈ l ∧ ∀ w : Nat, some w ∈ l → w ≤ v := by
  induction l generalizing v with
  | nil => exact absurd h (by simp [rowMax])
  | cons x rest ih =>
    rcases x with _ | u
    · rw [show rowMax (none :: rest) = rowMax rest from rfl] at h
      obtain ⟨hmem, hub⟩ := ih h
      refine ⟨List.mem_cons_of_mem _ hmem, ?_⟩
      intro w hw
      rcases List.mem_cons.mp hw with hww | hw'
      · exact absurd hww (by simp)
      · exact hub w hw'
    · rw [show rowMax (some u :: rest) =
        (match rowMax rest with
         | none => some u
         | some w => some (max u w)) from rfl] at h
      rcases hrest : rowMax rest with _ | m
      · rw [hrest] at h
        have huv : u = v := by simpa using h
        subst huv
        refine ⟨List.mem_cons_self _ _, ?_⟩
        intro w hw
        rcases List.mem_cons.mp hw with hww | hw'
        · have : w = u := by simpa using hww
          omega
        · exact absurd hw' (rowMax_eq_none hrest w)
      · rw [hrest] at h
        have hmv : max u m = v := by simpa using h
        obtain ⟨hmem, hub⟩ := ih hrest
        constructor
        · rcases Nat.le_total u m with hum | hmu
          · have : max u m = m := Nat.max_eq_right hum
            rw [this] at hmv
            subst hmv
            exact List.mem_cons_of_mem _ hmem
          · have : max u m = u := Nat.max_eq_left hmu
            rw [this] at hmv
            subst hmv
            exact List.mem_cons_self _ _
        · intro w hw
          rcases List.mem_cons.mp hw with hww | hw'
          · have : w = u := by simpa using hww
            subst this
            omega
          · have := hub w hw'
            omega

/-- C4: Alias combination by maximum — when two alias columns both report a
value for a date, the entity's aggregated value at that date is their
maximum; in general the aggregated value at a date is attained by one of the
surviving alias columns and bounds all of them from above (an element-wise
maximum, never a sum). -/
theorem alias_combination_max (A B : List (Nat × Nat)) (d a b : Nat)
    (ha : lookupDate d A = some a) (hb : lookupDate d B = some b) :
    aggregatedValue [A, B] d = some (max a b) ∧
    ∀ (cols : List (List (Nat × Nat))) (v : Nat),
      aggregatedValue cols d = some v →
        (∃ col ∈ cols, lookupDate d col = some v) ∧
        (∀ col ∈ cols, ∀ w, lookupDate d col = some w → w ≤ v) := by
  constructor
  · simp [aggregatedValue, ha, hb, rowMax]
  · intro cols v hv
    rw [aggregatedValue] at hv
    obtain ⟨hmem, hub⟩ := rowMax_spec hv
    constructor
    · obtain ⟨col, hcol, hc⟩ := List.mem_map.mp hmem
      exact ⟨col, hcol, hc⟩
    · intro col hcol w hw
      exact hub w (List.mem_map.mpr ⟨col, hcol, by rw [hw]⟩)

/-- Witness for C4 on two overlapping alias columns. -/
theorem alias_combination_max_witness :
    aggregatedValue [[(7, 21)], [(7, 34)]] 7 = some (max 21 34) :=
  (alias_combination_max [(7, 21)] [(7, 34)] 7 21 34 rfl rfl).1

/-- C6: Circuit-open discipline — the throttled branch increments the
consecutive-throttle counter, and takes exactly one long cooldown sleep with
the counter reset to 0 exactly when the counter reaches the threshold 3; on
the trace of three consecutive throttles followed by a success,
safe_build_payload returns successfully having taken the cooldown exactly
once with counter 0, and a subsequent all-success call takes no further
cooldown. -/
theorem circuit_open_discipline :
    (∀ c cd, c + 1 < 3 → throttleUpdate c cd = (c + 1, cd)) ∧
    (∀ c cd, 3 ≤ c + 1 → throttleUpdate c cd = (0, cd + 1)) ∧
    runBuildPayload throttleThenSuccess 0 = ⟨.returnedData, 0, 1⟩ ∧
    runBuildPayload (fun _ => .success) 0 = ⟨.returnedData, 0, 0⟩ := by
  refine ⟨?_, ?_, rfl, rfl⟩
  · intro c cd h
    rw [throttleUpdate, if_neg (by omega)]
  · intro c cd h
    rw [throttleUpdate, if_pos (by omega)]

/-- Witness for C6's counter bookkeeping at concrete counters. -/
theorem circuit_open_discipline_witness :
    throttleUpdate 0 0 = (1, 0) ∧ throttleUpdate 2 7 = (0, 8) :=
  ⟨circuit_open_discipline.1 0 0 (by decide),
   circuit_open_discipline.2.1 2 7 (by decide)⟩

/-- C7 counterexample: when network failures persist through every retry,
safe_build_payload raises after exhausting its attempts instead of returning
an empty series, refuting the claim for the payload-building half of the
fetch operation. -/
theorem network_error_exhaustion_cex :
    runBuildPayload (fun _ => .netError) 0 = ⟨.raisedExc, 0, 0⟩ := rfl

/-- C7 (amended): a network failure resets the consecutive-throttle counter
in both wrappers; when network failures persist through the maximum retry
count, safe_interest_over_time returns an empty series rather than raising,
while safe_build_payload raises — and the per-batch loop of the caller drops
the failed batch and continues with the remaining batches. -/
theorem network_error_degradation :
    (∀ c, runInterestOverTime (fun _ => .netError) c = ⟨.returnedEmpty, 0, 0⟩) ∧
    (∀ c, runBuildPayload (fun _ => .netError) c = ⟨.raisedExc, 0, 0⟩) ∧
    (∀ pre post : List (Option (List (Nat × Nat))),
      survivingSeries (pre ++ none :: post) = survivingSeries (pre ++ post)) := by
  refine ⟨fun c => rfl, fun c => rfl, ?_⟩
  intro pre post
  simp [survivingSeries]

/-- C8: Validation atomicity — when the merged dataset fails validation, the
persist operation reports failure with the file-system state untouched: no
backup is taken and no write is attempted, and validation runs before any
backup or destructive write. -/
theorem validation_blocks_persistence (df : DataFrame) (fs : FileState)
    (wp dk ck pk : Bool) (ts : String)
    (hbad : (validate_dataframe (some df)).1.1 = false) :
    safe_save_dataframe df fs wp dk ck pk ts = (false, fs) := by
  simp only [safe_save_dataframe]
  rw [if_pos hbad]

/-- Witness for C8 on an empty (hence invalid) merged dataset. -/
theorem validation_blocks_persistence_witness :
    safe_save_dataframe ⟨[]⟩ ⟨some sampleOldFrame, none, []⟩ true true true true
      "20250101_000000" = (false, ⟨some sampleOldFrame, none, []⟩) :=
  validation_blocks_persistence ⟨[]⟩ ⟨some sampleOldFrame, none, []⟩ true true true
    true "20250101_000000" (by decide)

/-- C9: Backup-before-overwrite — on a validated save over a pre-existing
dataset file, exactly one new timestamped backup entry whose content equals
the pre-merge dataset is appended for the CSV (plus one for the Parquet copy
when it exists); the backup is taken unconditionally, even when the
subsequent CSV write fails, and the file is overwritten exactly on a
successful write. -/
theorem backup_before_overwrite (df old : DataFrame) (fs : FileState)
    (ck pk : Bool) (ts : String)
    (hvalid : (validate_dataframe (some df)).1.1 = true)
    (hold : fs.csvFile = some old) :
    ((safe_save_dataframe df fs true true ck pk ts).2.backups =
      fs.backups ++ [⟨"trends_candidatos_daily.csv", ts, old⟩] ++
        (match fs.parquetFile with
         | some p => [⟨"trends_candidatos_daily.parquet", ts, p⟩]
         | none => [])) ∧
    (ck = false →
      (safe_save_dataframe df fs true true ck pk ts).2.csvFile = some old ∧
      (safe_save_dataframe df fs true true ck pk ts).1 = false) ∧
    (ck = true →
      (safe_save_dataframe df fs true true ck pk ts).2.csvFile = some df ∧
      (safe_save_dataframe df fs true true ck pk ts).1 = true) := by
  rcases hpq : fs.parquetFile with _ | p <;> cases ck <;> cases pk <;>
    simp [safe_save_dataframe, hvalid, hold, hpq, backup_existing_file]

/-- Witness for C9: the backup of the pre-merge dataset exists even though
the CSV write fails and the file is left untouched. -/
theorem backup_before_overwrite_witness :
    (safe_save_dataframe sampleNewFrame ⟨some sampleOldFrame, none, []⟩ true true
        false true "t").2.backups =
      [⟨"trends_candidatos_daily.csv", "t", sampleOldFrame⟩] ∧
    (safe_save_dataframe sampleNewFrame ⟨some sampleOldFrame, none, []⟩ true true
        false true "t").2.csvFile = some sampleOldFrame := by
  have h := backup_before_overwrite sampleNewFrame sampleOldFrame
    ⟨some sampleOldFrame, none, []⟩ false true "t" (by decide) rfl
  exact ⟨h.1, (h.2.1 rfl).1⟩

theorem find?_windowRows (frames : List (String × List (Nat × Nat))) :
    ∀ (ds : List Nat) (d : Nat), d ∈ ds →
      ((ds.map (fun x => (x, frames.map (fun p => (p.1, filledCell p.2 x))))).find?
          (fun r => r.1 == d)) =
        some (d, frames.map (fun p => (p.1, filledCell p.2 d))) := by
  intro ds
  induction ds with
  | nil => intro d hd; exact absurd hd (by simp)
  | cons x xs ih =>
    intro d hd
    rw [List.map_cons]
    by_cases hxd : x = d
    · subst hxd
      rw [List.find?_cons_of_pos _ (by simp)]
    · rw [List.find?_cons_of_neg _ (by simp [hxd])]
      refine ih d ?_
      rcases List.mem_cons.mp hd with h | h
      · exact absurd h.symm hxd
      · exact h

theorem find?_map_fst (frames : List (String × List (Nat × Nat)))
    (g : String × List (Nat × Nat) → Nat) (e : String) :
    ((frames.map (fun p => (p.1, g p))).find? (fun c => c.1 == e)) =
      (frames.find? (fun p => p.1 == e)).map (fun p => (p.1, g p)) := by
  induction frames with
  | nil => rfl
  | cons p ps ih =>
    rw [List.map_cons]
    by_cases hpe : p.1 = e
    · rw [List.find?_cons_of_pos _ (by simp [hpe]),
        List.find?_cons_of_pos _ (by simp [hpe])]
      rfl
    · rw [List.find?_cons_of_neg _ (by simp [hpe]),
        List.find?_cons_of_neg _ (by simp [hpe])]
      exact ih

/-- C10: Missing values become zero — in the Window assembled by
fetch_last_90_days, a date on which an entity's frame has no data is recorded
as the value 0 after the fillna step, indistinguishable from a genuine zero
score at that date. -/
theorem missing_value_filled_zero (frames : List (String × List (Nat × Nat)))
    (e : String) (f : List (Nat × Nat)) (d : Nat)
    (hf : frames.find? (fun p => p.1 == e) = some (e, f))
    (hd : d ∈ unionDates frames)
    (hmiss : lookupDate d f = none) :
    windowCell frames e d = some 0 ∧ filledCell ((d, 0) :: f) d = 0 := by
  constructor
  · rw [windowCell, assembleWindow, find?_windowRows frames (unionDates frames) d hd]
    simp only [Option.some_bind]
    rw [find?_map_fst frames (fun p => filledCell p.2 d) e, hf]
    simp [filledCell, hmiss]
  · simp [filledCell, lookupDate]

/-- Witness for C10: entity with no data at a date present in another frame. -/
theorem missing_value_filled_zero_witness :
    windowCell [("Johannes Kaiser", [(1, 7)]), ("Jeannette Jara", [(2, 5)])]
        "Jeannette Jara" 1 = some 0 ∧
    filledCell ((1, 0) :: [(2, 5)]) 1 = 0 :=
  missing_value_filled_zero
    [("Johannes Kaiser", [(1, 7)]), ("Jeannette Jara", [(2, 5)])]
    "Jeannette Jara" [(2, 5)] 1 (by decide) (by decide) (by decide)

end Trends
